import Mathlib

/-!
Shallow embedding of the Coverage Analytics Engine of
`src/app/redress_analyzer_app.py` (redress_analyzer), together with proofs
about the embedded operations.

Conventions of the embedding:
* calendar dates are whole days, represented as `Int` (epoch-day offsets);
  `delta_days = redress_date - official_date` matches
  `(df["redress_date"] - official_date).dt.days` for whole-day dates;
* pandas `Series` columns become Lean lists; `NaN`-able cells become `Option`
  (`pd.to_datetime(..., errors="coerce")` produces `NaT` exactly for the
  unparseable cells, so a parsed redress-date cell is modelled as
  `Option Int`, `none` meaning unparseable/missing);
* percentages are exact rationals `ℚ`; `round(x, 2)` is modelled by `round2`
  (the source inherits numpy's default rounding; the claims below never hinge
  on the behaviour at exact half-ties, only on monotonicity and exact values
  away from ties, which hold for any monotone round-to-nearest);
* sorting (pandas `sort_index` / `sort_values` / the sort inside `quantile`)
  is modelled with `List.insertionSort`, a stable comparison sort.
-/

namespace RedressAnalyzer

/-- `round(v, 2)` of the source: round a rational to 2 decimal places
(round-half-up; equals `round (x * 100) / 100`, see `round2_eq_round`). -/
def round2 (x : ℚ) : ℚ := (⌊x * 100 + 1 / 2⌋ : ℚ) / 100

/-- One row of the distribution table produced by `compute_distribution`:
columns `Days until redress`, `Count`, `Cumulative count`, `Cumulative (%)`. -/
structure DistEntry where
  key : Int
  count : Nat
  cumCount : Nat
  cumPct : ℚ
deriving DecidableEq, Repr

/-- `compute_distribution(delta_series)` of the source.
`value_counts().sort_index()` yields the distinct `delta_days` values in
ascending order with their multiplicities (here `deltas.dedup` sorted, with
`deltas.count k`); `cumsum()` of those counts at key `k` equals the number of
elements `≤ k`, because the keys are exactly the distinct values in ascending
order; `total = dist.sum()` is the length of the series; the cumulative
percentage column is `(cum / total * 100).round(2)`.

`distEntryOf deltas k` is the table row for one distinct value `k`. -/
def distEntryOf (deltas : List Int) (k : Int) : DistEntry :=
  { key := k
    count := deltas.count k
    cumCount := (deltas.filter (fun d => d ≤ k)).length
    cumPct :=
      round2 ((((deltas.filter (fun d => d ≤ k)).length : ℚ) / ((deltas.length : ℚ))) * 100) }

/-- The full distribution table: one `distEntryOf` row per distinct
`delta_days` value, in ascending key order. -/
def compute_distribution (deltas : List Int) : List DistEntry :=
  ((deltas.dedup).insertionSort (· ≤ ·)).map (distEntryOf deltas)

/-- `int(dist_df["Days until redress"].max())`: maximum of the key column
(only ever used on a non-empty table in the source; `0` on `[]` is a dummy). -/
def maxKey : List DistEntry → Int
  | [] => 0
  | [e] => e.key
  | e :: e' :: rest => max e.key (maxKey (e' :: rest))

/-- `days_for_target_coverage(dist_df, target_pct)` of the source: empty
table → `0`; otherwise the mask is `Cumulative (%) >= target_pct`, and
`mask.idxmax()` selects the first row where the mask is `True` (modelled by
`List.find?`); if no row qualifies, the maximum key is returned. -/
def days_for_target_coverage (dist : List DistEntry) (target : ℚ) : Int :=
  if dist.isEmpty then 0
  else
    match dist.find? (fun e => target ≤ e.cumPct) with
    | some e => e.key
    | none => maxKey dist

/-- `coverage_for_days(dist_df, days)` of the source: empty table → `0.0`;
mask is `Days until redress <= days`; if no row qualifies → `0.0`; otherwise
`round(covered / total * 100, 2)` where `covered` sums `Count` over the mask
and `total` sums the whole `Count` column. -/
def coverage_for_days (dist : List DistEntry) (days : Int) : ℚ :=
  if dist.isEmpty then 0
  else
    let qualifying := dist.filter (fun e => e.key ≤ days)
    if qualifying.isEmpty then 0
    else
      let covered := (qualifying.map DistEntry.count).sum
      let total := (dist.map DistEntry.count).sum
      round2 (((covered : ℚ) / (total : ℚ)) * 100)

/-- pandas `Series.quantile(q)` with the default linear interpolation:
sort the sample, take position `h = (n - 1) * q`, and linearly interpolate
between the neighbouring order statistics. -/
def quantile (l : List ℚ) (q : ℚ) : ℚ :=
  let s := l.insertionSort (· ≤ ·)
  if s.isEmpty then 0
  else
    let h := ((l.length : ℚ) - 1) * q
    let lo := s.getD ⌊h⌋.toNat 0
    let hi := s.getD ⌈h⌉.toNat 0
    lo + (h - (⌊h⌋ : ℚ)) * (hi - lo)

/-- One raw spreadsheet row as seen by `prepare_file_data`: the
`GRUND_UNZUSTELLBARKEIT` (reason) cell, possibly missing, and the
`REDRESSENERFASSUNG_DATUM` cell after `pd.to_datetime(..., errors="coerce")`
(`none` = `NaT`, i.e. missing or unparseable). -/
structure RawRow where
  reason : Option String
  redress : Option Int
deriving DecidableEq, Repr

/-- A loaded campaign table: whether the two required columns are present,
plus its data rows. -/
structure RawTable where
  hasReasonCol : Bool
  hasRedressCol : Bool
  rows : List RawRow
deriving DecidableEq, Repr

/-- One normalized record (a row of the enriched dataframe): the `campaign`,
`official_date`, `delta_days` and `reason` columns added by
`prepare_file_data`. -/
structure Record where
  campaign : String
  official_date : Int
  delta_days : Int
  reason : String
deriving DecidableEq, Repr

/-- The dict returned by `prepare_file_data`. -/
structure Prepared where
  campaign : String
  official_date : Int
  before_count : Nat
  after_count : Nat
  records : List Record
deriving DecidableEq, Repr

/-- `df[reason_col].astype(str)` applied to one cell: a missing value (pandas
`NaN`) is stringified to the literal `"nan"`; a present string stays itself. -/
def coerceReason : Option String → String
  | none => "nan"
  | some s => s

/-- One row of the enriched dataframe built by `prepare_file_data` (for a row
whose redress date parsed to `d`). -/
def toRecord (campaign : String) (official : Int) (reason : Option String)
    (d : Int) : Record :=
  { campaign := campaign
    official_date := official
    delta_days := d - official
    reason := coerceReason reason }

/-- `prepare_file_data(file_path, prompt_manual)` of the source, with the
file/UI collaborators already resolved: `official` is the official mailing
date after metadata lookup and optional manual fallback (`none` = still
unresolved → return `None`); `t` is the loaded table. The source then
rejects (`return None`, after the missing-columns warning) when the loaded
dataframe is empty or a required column is absent; otherwise it coerces the
redress-date column (`errors="coerce"`), drops rows with `NaT`
(`dropna(subset=["redress_date"])`), computes `delta_days`, and stringifies
the reason column. There is no further rejection: the counters
`before_count`/`after_count` are the row counts before/after the `dropna`. -/
def prepare_file_data (campaign : String) (t : RawTable) (official : Option Int) :
    Option Prepared :=
  match official with
  | none => none
  | some d =>
    if t.rows.isEmpty || !(t.hasReasonCol && t.hasRedressCol) then none
    else
      let parsed := t.rows.filterMap fun row =>
        (row.redress).map fun rd => toRecord campaign d row.reason rd
      some
        { campaign := campaign
          official_date := d
          before_count := t.rows.length
          after_count := parsed.length
          records := parsed }

/-- `delta_series = df_filtered["delta_days"]`: the delta-days column. -/
def delta_series (recs : List Record) : List Int := recs.map Record.delta_days

/-- `all_reasons = sorted(df_all["reason"].dropna().unique().tolist())`:
after `astype(str)` the column has no `NaN`s, so `dropna` is the identity;
`unique` keeps one copy of each value and `sorted` orders them. -/
def all_reasons (recs : List Record) : List String :=
  ((recs.map Record.reason).dedup).insertionSort (· ≤ ·)

/-- The Reason Filter (`df_filtered` in the source): an exact string-equality
match on `reason` when a reason is selected (`none` models the
`"(All reasons)"` choice), then removal of rows with `delta_days < 0` when
`exclude_negative` is set. -/
def df_filtered (selectedReason : Option String) (excludeNegative : Bool)
    (recs : List Record) : List Record :=
  let afterReason :=
    match selectedReason with
    | none => recs
    | some s => recs.filter fun r => r.reason == s
  if excludeNegative then afterReason.filter (fun r => 0 ≤ r.delta_days)
  else afterReason

/-- One row of `summarize_by_campaign`: the per-campaign aggregates of
`delta_days` plus the campaign's official date. -/
structure CampaignSummary where
  campaign : String
  count : Nat
  median : ℚ
  p90 : ℚ
  p95 : ℚ
  p99 : ℚ
  dmin : Int
  dmax : Int
  official_date : Int
deriving DecidableEq, Repr

/-- The `delta_days` of one campaign's group (`df.groupby("campaign")`). -/
def campaign_deltas (recs : List Record) (c : String) : List Int :=
  delta_series (recs.filter fun r => r.campaign == c)

/-- `summarize_by_campaign(df)` of the source: group by `campaign` (pandas
sorts the group keys), aggregate `delta_days` with count / median /
`quantile(0.9)` / `quantile(0.95)` / `quantile(0.99)` / min / max, join the
first `official_date` of each group, and sort the rows by `official_date`
descending (most recent campaign first).

`summaryRowOf recs c` is the aggregated row of campaign `c`. -/
def summaryRowOf (recs : List Record) (c : String) : CampaignSummary :=
  let ds := campaign_deltas recs c
  let dq : List ℚ := ds.map fun d : ℤ => (d : ℚ)
  { campaign := c
    count := ds.length
    median := quantile dq (1 / 2)
    p90 := quantile dq (9 / 10)
    p95 := quantile dq (19 / 20)
    p99 := quantile dq (99 / 100)
    dmin := ds.min?.getD 0
    dmax := ds.max?.getD 0
    official_date :=
      ((recs.filter fun r => r.campaign == c).head?.map Record.official_date).getD 0 }

/-- The summary table: one `summaryRowOf` row per distinct campaign (pandas
`groupby` sorts the group keys), sorted by official date descending. -/
def summarize_by_campaign (recs : List Record) : List CampaignSummary :=
  let names := ((recs.map Record.campaign).dedup).insertionSort (· ≤ ·)
  (names.map (summaryRowOf recs)).insertionSort fun a b => b.official_date ≤ a.official_date

/-- `avg_campaign_median = round(campaign_summary["median"].mean(), 2)`. -/
def avg_campaign_median (recs : List Record) : ℚ :=
  let meds := (summarize_by_campaign recs).map CampaignSummary.median
  round2 (meds.sum / (meds.length : ℚ))

/-- `avg_campaign_p95 = round(campaign_summary["p95"].mean(), 2)`. -/
def avg_campaign_p95 (recs : List Record) : ℚ :=
  let ps := (summarize_by_campaign recs).map CampaignSummary.p95
  round2 (ps.sum / (ps.length : ℚ))

/-- `avg_campaign_p99 = round(campaign_summary["p99"].mean(), 2)`. -/
def avg_campaign_p99 (recs : List Record) : ℚ :=
  let ps := (summarize_by_campaign recs).map CampaignSummary.p99
  round2 (ps.sum / (ps.length : ℚ))

/-- The pooled ("by records") percentile of the source's all-mailings view:
`delta_series.describe(...)` computes its percentiles on the pooled
`delta_days` column, i.e. `Series.quantile` on all records as one
population. -/
def pooled_quantile (recs : List Record) (q : ℚ) : ℚ :=
  quantile ((delta_series recs).map fun d : ℤ => (d : ℚ)) q

/-! ### Helper lemmas about `round2` -/

theorem round2_eq_round (x : ℚ) : round2 x = (round (x * 100) : ℚ) / 100 := by
  rw [round2, round_eq]

theorem round2_mono {x y : ℚ} (h : x ≤ y) : round2 x ≤ round2 y := by
  unfold round2
  have hf : ⌊x * 100 + 1 / 2⌋ ≤ ⌊y * 100 + 1 / 2⌋ := Int.floor_mono (by linarith)
  have hf' : ((⌊x * 100 + 1 / 2⌋ : ℤ) : ℚ) ≤ ((⌊y * 100 + 1 / 2⌋ : ℤ) : ℚ) := by
    exact_mod_cast hf
  linarith

theorem round2_hundred : round2 100 = 100 := by
  have h : ⌊(100 : ℚ) * 100 + 1 / 2⌋ = 10000 := by
    norm_num [Int.floor_eq_iff]
  rw [round2, h]
  norm_num

theorem round2_zero : round2 0 = 0 := by
  have h : ⌊(0 : ℚ) * 100 + 1 / 2⌋ = 0 := by
    norm_num [Int.floor_eq_iff]
  rw [round2, h]
  norm_num

/-- Evaluation helper: `round2 x = n / 100` once the floor is bracketed. -/
theorem round2_eval {x : ℚ} {n : ℤ} (h1 : (n : ℚ) ≤ x * 100 + 1 / 2)
    (h2 : x * 100 + 1 / 2 < n + 1) : round2 x = (n : ℚ) / 100 := by
  rw [round2, Int.floor_eq_iff.mpr ⟨h1, h2⟩]

/-! ### Generic list helper lemmas -/

theorem length_filter_mono {α : Type} {p q : α → Bool} (l : List α)
    (h : ∀ a, p a = true → q a = true) :
    (l.filter p).length ≤ (l.filter q).length := by
  induction l with
  | nil => simp
  | cons a t ih =>
    by_cases hp : p a = true
    · have hq := h a hp
      simp only [List.filter_cons, hp, hq, if_true, List.length_cons]
      exact Nat.succ_le_succ ih
    · have hp' : p a = false := by simpa using hp
      simp only [List.filter_cons, hp', Bool.false_eq_true, if_false]
      cases hq : q a
      · simp only [Bool.false_eq_true, if_false]
        exact ih
      · simp only [if_true, List.length_cons]
        exact ih.trans (Nat.le_succ _)

theorem sum_map_add_nat {α : Type} (f g : α → ℕ) (K : List α) :
    (K.map fun k => f k + g k).sum = (K.map f).sum + (K.map g).sum := by
  induction K with
  | nil => simp
  | cons b K ih =>
    simp only [List.map_cons, List.sum_cons, ih]
    omega

theorem sum_map_indicator {α : Type} [DecidableEq α] (a : α) (K : List α)
    (hnd : K.Nodup) (ha : a ∈ K) :
    (K.map fun k => if a = k then 1 else 0).sum = 1 := by
  induction K with
  | nil => cases ha
  | cons b K ih =>
    rcases List.mem_cons.mp ha with rfl | hmem
    · have hnotin : a ∉ K := (List.nodup_cons.mp hnd).1
      simp only [List.map_cons, List.sum_cons, if_pos rfl]
      have hz : (K.map fun k => if a = k then 1 else 0).sum = 0 := by
        refine List.sum_eq_zero ?_
        intro x hx
        rcases List.mem_map.mp hx with ⟨k, hk, rfl⟩
        have hne : a ≠ k := fun h => hnotin (h ▸ hk)
        simp [hne]
      rw [hz]
      simp
    · have hne : a ≠ b := by
        intro h
        exact (List.nodup_cons.mp hnd).1 (h ▸ hmem)
      simp only [List.map_cons, List.sum_cons, if_neg hne]
      rw [ih (List.nodup_cons.mp hnd).2 hmem]

theorem sum_map_count_eq_length {α : Type} [DecidableEq α] (l : List α) :
    ∀ K : List α, K.Nodup → (∀ a ∈ l, a ∈ K) →
      (K.map fun k => l.count k).sum = l.length := by
  induction l with
  | nil =>
    intro K _ _
    simp only [List.count_nil, List.length_nil]
    exact List.sum_eq_zero (by
      intro x hx
      rcases List.mem_map.mp hx with ⟨k, _, rfl⟩
      rfl)
  | cons a t ih =>
    intro K hnd hsub
    have hcount : (K.map fun k => (a :: t).count k) =
        K.map fun k => t.count k + if a = k then 1 else 0 := by
      refine List.map_congr_left ?_
      intro k _
      simp [List.count_cons, beq_iff_eq]
    rw [hcount, sum_map_add_nat,
      ih K hnd (fun x hx => hsub x (List.mem_cons_of_mem a hx)),
      sum_map_indicator a K hnd (hsub a (List.mem_cons_self a t))]
    simp

/-- `List.find?` finds the first satisfying element: the prefix before it
consists of failures. -/
theorem find?_split {α : Type} {p : α → Bool} {l : List α} {e : α}
    (h : l.find? p = some e) :
    p e = true ∧ ∃ s t, l = s ++ e :: t ∧ ∀ a ∈ s, p a = false := by
  rcases List.find?_eq_some.mp h with ⟨hp, s, t, rfl, hs⟩
  exact ⟨hp, s, t, rfl, fun a ha => by simpa using hs a ha⟩

/-- A sorted list is bounded by its last element. -/
theorem sorted_le_getLast? {l : List Int} (hs : l.Sorted (· ≤ ·)) :
    ∀ {x}, x ∈ l → ∀ {m}, l.getLast? = some m → x ≤ m := by
  induction l with
  | nil => intro x hx; cases hx
  | cons a t ih =>
    intro x hx m hm
    cases t with
    | nil =>
      have hxa : x = a := by simpa using hx
      have hma : m = a := by simpa using hm.symm
      rw [hxa, hma]
    | cons b u =>
      have hm' : (b :: u).getLast? = some m := by
        rwa [List.getLast?_cons_cons] at hm
      have hmmem : m ∈ b :: u := by
        rcases List.mem_getLast?_eq_getLast (l := b :: u) (x := m)
            (by rw [hm']; rfl) with ⟨hne, hml⟩
        rw [hml]
        exact List.getLast_mem hne
      rcases List.mem_cons.mp hx with rfl | hx'
      · exact (List.pairwise_cons.mp hs).1 m hmmem
      · exact ih (List.pairwise_cons.mp hs).2 hx' hm'

/-! ### Helper lemmas about `maxKey` -/

theorem le_maxKey : ∀ (dist : List DistEntry), ∀ e ∈ dist, e.key ≤ maxKey dist := by
  intro dist
  induction dist with
  | nil => intro e he; cases he
  | cons a t ih =>
    intro e he
    cases t with
    | nil =>
      rcases List.mem_cons.mp he with rfl | h
      · exact le_refl _
      · cases h
    | cons b u =>
      rcases List.mem_cons.mp he with rfl | h
      · exact le_max_left _ _
      · exact le_trans (ih e h) (le_max_right _ _)

/-! ### Structure of `compute_distribution` -/

theorem distEntryOf_key (deltas : List Int) (k : Int) : (distEntryOf deltas k).key = k := rfl

theorem dist_keys (deltas : List Int) :
    (compute_distribution deltas).map DistEntry.key =
      (deltas.dedup).insertionSort (· ≤ ·) := by
  rw [compute_distribution, List.map_map]
  have h : (DistEntry.key ∘ distEntryOf deltas) = id := rfl
  rw [h, List.map_id]

theorem dist_keys_sorted_le (deltas : List Int) :
    ((compute_distribution deltas).map DistEntry.key).Sorted (· ≤ ·) := by
  rw [dist_keys]
  exact List.sorted_insertionSort _ _

theorem dist_keys_nodup (deltas : List Int) :
    ((compute_distribution deltas).map DistEntry.key).Nodup := by
  rw [dist_keys]
  exact ((List.perm_insertionSort _ _).nodup_iff).mpr (List.nodup_dedup _)

theorem dist_keys_sorted_lt (deltas : List Int) :
    ((compute_distribution deltas).map DistEntry.key).Sorted (· < ·) := by
  have h1 := dist_keys_sorted_le deltas
  have h2 := dist_keys_nodup deltas
  exact (List.Pairwise.and h1 h2).imp fun h => lt_of_le_of_ne h.1 h.2

theorem mem_dist_keys (deltas : List Int) (k : Int) :
    k ∈ (compute_distribution deltas).map DistEntry.key ↔ k ∈ deltas := by
  rw [dist_keys, List.mem_insertionSort, List.mem_dedup]

theorem mem_compute_distribution {deltas : List Int} {e : DistEntry} :
    e ∈ compute_distribution deltas ↔ e.key ∈ deltas ∧ e = distEntryOf deltas e.key := by
  constructor
  · intro he
    rcases List.mem_map.mp he with ⟨k, hk, rfl⟩
    have hk' : k ∈ deltas := List.mem_dedup.mp ((List.mem_insertionSort _).mp hk)
    exact ⟨hk', rfl⟩
  · rintro ⟨hk, he⟩
    rw [he]
    refine List.mem_map.mpr ⟨e.key, ?_, rfl⟩
    rw [List.mem_insertionSort, List.mem_dedup]
    exact hk

theorem cumPct_mono (deltas : List Int) {k1 k2 : Int} (h : k1 ≤ k2) :
    (distEntryOf deltas k1).cumPct ≤ (distEntryOf deltas k2).cumPct := by
  apply round2_mono
  have hlen : (deltas.filter (fun d => d ≤ k1)).length ≤
      (deltas.filter (fun d => d ≤ k2)).length := by
    apply length_filter_mono
    intro a ha
    have h1 : a ≤ k1 := of_decide_eq_true ha
    exact decide_eq_true (le_trans h1 h)
  have hlen' : ((deltas.filter (fun d => d ≤ k1)).length : ℚ) ≤
      ((deltas.filter (fun d => d ≤ k2)).length : ℚ) := by exact_mod_cast hlen
  have hnn : (0 : ℚ) ≤ (deltas.length : ℚ) := by positivity
  exact mul_le_mul_of_nonneg_right (div_le_div_of_nonneg_right hlen' hnn) (by norm_num)

theorem dist_cumPct_pairwise (deltas : List Int) :
    ((compute_distribution deltas).map DistEntry.cumPct).Pairwise (· ≤ ·) := by
  rw [compute_distribution, List.map_map, List.pairwise_map]
  have hs : ((deltas.dedup).insertionSort (· ≤ ·)).Pairwise (· ≤ ·) :=
    List.sorted_insertionSort _ _
  exact hs.imp fun h => cumPct_mono deltas h

theorem dist_counts_sum (deltas : List Int) :
    ((compute_distribution deltas).map DistEntry.count).sum = deltas.length := by
  rw [compute_distribution, List.map_map]
  have h : (DistEntry.count ∘ distEntryOf deltas) = fun k => deltas.count k := rfl
  rw [h]
  have hperm : List.Perm
      (((deltas.dedup).insertionSort (· ≤ ·)).map fun k => deltas.count k)
      ((deltas.dedup).map fun k => deltas.count k) :=
    (List.perm_insertionSort _ _).map _
  rw [hperm.sum_eq]
  exact sum_map_count_eq_length deltas deltas.dedup (List.nodup_dedup _)
    (fun a ha => List.mem_dedup.mpr ha)

theorem dist_keys_ne_nil {deltas : List Int} (h : deltas ≠ []) :
    (deltas.dedup).insertionSort (· ≤ ·) ≠ [] := by
  intro hnil
  have hp := List.Perm.symm (List.perm_insertionSort (· ≤ ·) deltas.dedup)
  rw [hnil] at hp
  exact h ((List.dedup_eq_nil deltas).mp hp.eq_nil)

theorem compute_distribution_ne_nil {deltas : List Int} (h : deltas ≠ []) :
    compute_distribution deltas ≠ [] := by
  intro hnil
  have hmap : (compute_distribution deltas).map DistEntry.key = [] := by
    rw [hnil]
    rfl
  rw [dist_keys] at hmap
  exact dist_keys_ne_nil h hmap

theorem dist_getLast?_eq {deltas : List Int} (h : deltas ≠ []) :
    ∃ m, ((deltas.dedup).insertionSort (· ≤ ·)).getLast? = some m ∧
      (compute_distribution deltas).getLast? = some (distEntryOf deltas m) ∧
      ∀ d ∈ deltas, d ≤ m := by
  have hne := dist_keys_ne_nil h
  have hm := List.getLast?_eq_getLast_of_ne_nil hne
  refine ⟨_, hm, ?_, ?_⟩
  · rw [compute_distribution, List.getLast?_map, hm]
    rfl
  · intro d hd
    have hdk : d ∈ (deltas.dedup).insertionSort (· ≤ ·) := by
      rw [List.mem_insertionSort, List.mem_dedup]
      exact hd
    exact sorted_le_getLast? (List.sorted_insertionSort _ _) hdk hm

theorem dist_last_cumPct {deltas : List Int} (h : deltas ≠ []) :
    ((compute_distribution deltas).getLast?).map DistEntry.cumPct = some 100 := by
  obtain ⟨m, _, hlast, hle⟩ := dist_getLast?_eq h
  rw [hlast]
  have hfilter : deltas.filter (fun d => d ≤ m) = deltas :=
    List.filter_eq_self.mpr fun a ha => decide_eq_true (hle a ha)
  have hlen : (deltas.length : ℚ) ≠ 0 := by
    intro h0
    exact h (List.length_eq_zero.mp (by exact_mod_cast h0))
  have hpct : (distEntryOf deltas m).cumPct = 100 := by
    unfold distEntryOf
    dsimp only
    rw [hfilter, div_self hlen, one_mul, round2_hundred]
  rw [Option.map_some', hpct]

/-! ### Helper lemmas about `coverage_for_days` and `days_for_target_coverage` -/

theorem isEmpty_false_of_ne_nil {α : Type} {l : List α} (h : l ≠ []) :
    l.isEmpty = false := by
  cases l with
  | nil => exact absurd rfl h
  | cons a t => rfl

theorem coverage_for_days_formula (dist : List DistEntry) (days : Int) (hne : dist ≠ [])
    (hq : dist.filter (fun e => e.key ≤ days) ≠ []) :
    coverage_for_days dist days =
      round2 ((((((dist.filter fun e => e.key ≤ days)).map DistEntry.count).sum : ℚ) /
        (((dist.map DistEntry.count).sum : ℚ))) * 100) := by
  simp only [coverage_for_days, isEmpty_false_of_ne_nil hne, isEmpty_false_of_ne_nil hq,
    Bool.false_eq_true, if_false]

theorem coverage_for_days_zero_of_no_qualifier (dist : List DistEntry) (days : Int)
    (h : ∀ e ∈ dist, days < e.key) : coverage_for_days dist days = 0 := by
  by_cases hd : dist = []
  · rw [hd]
    rfl
  · have hfil : dist.filter (fun e => e.key ≤ days) = [] :=
      List.filter_eq_nil_iff.mpr fun e he => by simpa using not_le_of_lt (h e he)
    simp only [coverage_for_days, isEmpty_false_of_ne_nil hd, Bool.false_eq_true, if_false,
      hfil, List.isEmpty_nil, if_true]

/-! ### The claims -/

/-- C2: for every distribution table and integer `days`, `coverage_for_days`
returns the sum of counts of entries with key ≤ `days`, divided by the total
count, times 100, rounded to 2 decimal places; if `days` is below every key
present it returns `0.0`; for an empty table it returns `0.0`. -/
theorem C2_coverage_for_days_spec (dist : List DistEntry) (days : Int) :
    (dist = [] → coverage_for_days dist days = 0) ∧
    ((∀ e ∈ dist, days < e.key) → coverage_for_days dist days = 0) ∧
    (dist ≠ [] → coverage_for_days dist days =
      round2 ((((((dist.filter fun e => e.key ≤ days)).map DistEntry.count).sum : ℚ) /
        (((dist.map DistEntry.count).sum : ℚ))) * 100)) := by
  refine ⟨fun h => by rw [h]; rfl, coverage_for_days_zero_of_no_qualifier dist days, ?_⟩
  intro hne
  by_cases hq : dist.filter (fun e => e.key ≤ days) = []
  · have hlt : ∀ e ∈ dist, days < e.key := by
      intro e he
      by_contra hnot
      have hmem : e ∈ dist.filter (fun e => e.key ≤ days) :=
        List.mem_filter.mpr ⟨he, decide_eq_true (not_lt.mp hnot)⟩
      rw [hq] at hmem
      cases hmem
    rw [coverage_for_days_zero_of_no_qualifier dist days hlt, hq]
    simp only [List.map_nil, List.sum_nil, Nat.cast_zero, zero_div, zero_mul, round2_zero]
  · exact coverage_for_days_formula dist days hne hq

theorem C2_coverage_for_days_spec_witness :
    coverage_for_days [] 5 = 0 ∧
    coverage_for_days [⟨3, 2, 2, 100⟩] 1 = 0 ∧
    coverage_for_days [⟨3, 2, 2, 100⟩] 3 =
      round2 ((((((([⟨3, 2, 2, 100⟩] : List DistEntry).filter fun e => e.key ≤ 3)).map
        DistEntry.count).sum : ℚ) /
        (((([⟨3, 2, 2, 100⟩] : List DistEntry).map DistEntry.count).sum : ℚ))) * 100) :=
  ⟨(C2_coverage_for_days_spec [] 5).1 rfl,
   (C2_coverage_for_days_spec [⟨3, 2, 2, 100⟩] 1).2.1 (by decide),
   (C2_coverage_for_days_spec [⟨3, 2, 2, 100⟩] 3).2.2 (by decide)⟩

/-- C3: for every non-empty sequence of `delta_days` values, the distribution
table built from it is sorted strictly ascending by key, its keys are exactly
the distinct values of the sequence, its cumulative-percentage column is
monotonically non-decreasing in key order, and the last row's cumulative
percentage equals exactly `100.00`. -/
theorem C3_distribution_invariants (deltas : List Int) (h : deltas ≠ []) :
    ((compute_distribution deltas).map DistEntry.key).Sorted (· < ·) ∧
    (∀ k, k ∈ (compute_distribution deltas).map DistEntry.key ↔ k ∈ deltas) ∧
    ((compute_distribution deltas).map DistEntry.cumPct).Pairwise (· ≤ ·) ∧
    ((compute_distribution deltas).getLast?).map DistEntry.cumPct = some 100 :=
  ⟨dist_keys_sorted_lt deltas, fun k => mem_dist_keys deltas k,
   dist_cumPct_pairwise deltas, dist_last_cumPct h⟩

theorem C3_distribution_invariants_witness :
    (([0, 2] : List Int) ≠ []) ∧
    (((compute_distribution [0, 2]).map DistEntry.key).Sorted (· < ·) ∧
      (∀ k, k ∈ (compute_distribution [0, 2]).map DistEntry.key ↔ k ∈ ([0, 2] : List Int)) ∧
      ((compute_distribution [0, 2]).map DistEntry.cumPct).Pairwise (· ≤ ·) ∧
      ((compute_distribution [0, 2]).getLast?).map DistEntry.cumPct = some 100) :=
  ⟨by decide, C3_distribution_invariants [0, 2] (by decide)⟩

/-- C7: for every table built by the Distribution Builder from a non-empty
population, `coverage_for_days(table, maxKey)` equals `100.00`, which is also
the table's final cumulative percentage value, even though
`coverage_for_days` recomputes and rounds the ratio itself rather than
reading the cumulative column. -/
theorem C7_coverage_at_max_key (deltas : List Int) (h : deltas ≠ []) :
    coverage_for_days (compute_distribution deltas)
        (maxKey (compute_distribution deltas)) = 100 ∧
    ((compute_distribution deltas).getLast?).map DistEntry.cumPct =
      some (coverage_for_days (compute_distribution deltas)
        (maxKey (compute_distribution deltas))) := by
  have hne := compute_distribution_ne_nil h
  have hfix : (compute_distribution deltas).filter
      (fun e => e.key ≤ maxKey (compute_distribution deltas)) = compute_distribution deltas :=
    List.filter_eq_self.mpr fun e he => decide_eq_true (le_maxKey _ e he)
  have hlen : ((deltas.length : ℚ)) ≠ 0 := by
    intro h0
    exact h (List.length_eq_zero.mp (by exact_mod_cast h0))
  have hcov : coverage_for_days (compute_distribution deltas)
      (maxKey (compute_distribution deltas)) = 100 := by
    rw [coverage_for_days_formula _ _ hne (by rw [hfix]; exact hne), hfix, dist_counts_sum,
      div_self hlen, one_mul, round2_hundred]
  exact ⟨hcov, by rw [dist_last_cumPct h, hcov]⟩

theorem C7_coverage_at_max_key_witness :
    (([0, 2] : List Int) ≠ []) ∧
    (coverage_for_days (compute_distribution [0, 2])
        (maxKey (compute_distribution [0, 2])) = 100 ∧
      ((compute_distribution [0, 2]).getLast?).map DistEntry.cumPct =
        some (coverage_for_days (compute_distribution [0, 2])
          (maxKey (compute_distribution [0, 2])))) :=
  ⟨by decide, C7_coverage_at_max_key [0, 2] (by decide)⟩

/-- C1: for every distribution table (sorted ascending by key, the §3
invariant) and target percentage: if any entry's cumulative percentage
reaches the target, `days_for_target_coverage` returns the smallest key whose
cumulative percentage is ≥ the target (the table is scanned in ascending key
order and the first qualifying key wins); if no entry reaches the target it
returns the maximum key present; for an empty table it returns `0`. -/
theorem C1_days_for_target_coverage_spec (dist : List DistEntry) (target : ℚ)
    (hsorted : (dist.map DistEntry.key).Sorted (· ≤ ·)) :
    (dist = [] → days_for_target_coverage dist target = 0) ∧
    ((∃ e ∈ dist, target ≤ e.cumPct) →
      ∃ e ∈ dist, days_for_target_coverage dist target = e.key ∧ target ≤ e.cumPct ∧
        ∀ e' ∈ dist, target ≤ e'.cumPct → e.key ≤ e'.key) ∧
    (dist ≠ [] → (∀ e ∈ dist, ¬ target ≤ e.cumPct) →
      days_for_target_coverage dist target = maxKey dist) := by
  refine ⟨fun h => by rw [h]; rfl, ?_, ?_⟩
  · rintro ⟨e0, he0, hp0⟩
    have hsome : (dist.find? fun e => target ≤ e.cumPct).isSome :=
      List.find?_isSome.mpr ⟨e0, he0, decide_eq_true hp0⟩
    obtain ⟨e, he⟩ := Option.isSome_iff_exists.mp hsome
    obtain ⟨hpe, s, t, heq, hfail⟩ := find?_split he
    have hne : dist ≠ [] := by
      rintro rfl
      cases he0
    have hval : days_for_target_coverage dist target = e.key := by
      simp only [days_for_target_coverage, isEmpty_false_of_ne_nil hne, Bool.false_eq_true,
        if_false, he]
    refine ⟨e, ?_, hval, of_decide_eq_true hpe, ?_⟩
    · rw [heq]
      exact List.mem_append_right _ (List.mem_cons_self _ _)
    · intro e' he' hpe'
      have he'ns : e' ∉ s := by
        intro hin
        have hf := hfail e' hin
        rw [decide_eq_true hpe'] at hf
        exact Bool.noConfusion hf
      rw [heq] at he'
      rcases List.mem_append.mp he' with hin | hin
      · exact absurd hin he'ns
      rcases List.mem_cons.mp hin with rfl | hin'
      · exact le_refl _
      · have hpair : (dist.map DistEntry.key).Pairwise (· ≤ ·) := hsorted
        rw [heq, List.map_append, List.map_cons] at hpair
        exact (List.pairwise_cons.mp (List.pairwise_append.mp hpair).2.1).1 _
          (List.mem_map_of_mem _ hin')
  · intro hne hall
    have hnone : dist.find? (fun e => target ≤ e.cumPct) = none :=
      List.find?_eq_none.mpr fun x hx => by simpa using hall x hx
    simp only [days_for_target_coverage, isEmpty_false_of_ne_nil hne, Bool.false_eq_true,
      if_false, hnone]

theorem C1_days_for_target_coverage_spec_witness :
    ((([⟨0, 1, 1, 50⟩, ⟨2, 1, 2, 100⟩] : List DistEntry).map DistEntry.key).Sorted (· ≤ ·)) ∧
    (((([] : List DistEntry) = []) → days_for_target_coverage [] 90 = 0) ∧
      ((∃ e ∈ ([⟨0, 1, 1, 50⟩, ⟨2, 1, 2, 100⟩] : List DistEntry), (90 : ℚ) ≤ e.cumPct) →
        ∃ e ∈ ([⟨0, 1, 1, 50⟩, ⟨2, 1, 2, 100⟩] : List DistEntry),
          days_for_target_coverage [⟨0, 1, 1, 50⟩, ⟨2, 1, 2, 100⟩] 90 = e.key ∧
            (90 : ℚ) ≤ e.cumPct ∧
            ∀ e' ∈ ([⟨0, 1, 1, 50⟩, ⟨2, 1, 2, 100⟩] : List DistEntry),
              (90 : ℚ) ≤ e'.cumPct → e.key ≤ e'.key)) := by
  constructor
  · decide
  constructor
  · exact (C1_days_for_target_coverage_spec [] 90 (by decide)).1
  · exact (C1_days_for_target_coverage_spec [⟨0, 1, 1, 50⟩, ⟨2, 1, 2, 100⟩] 90 (by decide)).2.1

/-- C8: for every distribution table (sorted ascending by key, the §3
invariant), `days_for_target_coverage(table, p)` is monotonically
non-decreasing as the target percentage `p` increases. -/
theorem C8_days_for_target_coverage_mono (dist : List DistEntry)
    (hsorted : (dist.map DistEntry.key).Sorted (· ≤ ·)) {p1 p2 : ℚ} (h : p1 ≤ p2) :
    days_for_target_coverage dist p1 ≤ days_for_target_coverage dist p2 := by
  by_cases hnil : dist = []
  · rw [hnil]
    exact le_refl _
  have hie := isEmpty_false_of_ne_nil hnil
  have himp : ∀ e : DistEntry, decide (p2 ≤ e.cumPct) = true →
      decide (p1 ≤ e.cumPct) = true :=
    fun e he => decide_eq_true (le_trans h (of_decide_eq_true he))
  cases h2 : dist.find? (fun e => p2 ≤ e.cumPct) with
  | none =>
    have hv2 : days_for_target_coverage dist p2 = maxKey dist := by
      simp only [days_for_target_coverage, hie, Bool.false_eq_true, if_false, h2]
    rw [hv2]
    cases h1 : dist.find? (fun e => p1 ≤ e.cumPct) with
    | none =>
      have hv1 : days_for_target_coverage dist p1 = maxKey dist := by
        simp only [days_for_target_coverage, hie, Bool.false_eq_true, if_false, h1]
      rw [hv1]
    | some e1 =>
      have hv1 : days_for_target_coverage dist p1 = e1.key := by
        simp only [days_for_target_coverage, hie, Bool.false_eq_true, if_false, h1]
      rw [hv1]
      exact le_maxKey dist e1 (List.mem_of_find?_eq_some h1)
  | some e2 =>
    have hv2 : days_for_target_coverage dist p2 = e2.key := by
      simp only [days_for_target_coverage, hie, Bool.false_eq_true, if_false, h2]
    have hp2 : decide (p2 ≤ e2.cumPct) = true := (find?_split h2).1
    have hmem2 : e2 ∈ dist := List.mem_of_find?_eq_some h2
    have hsome : (dist.find? fun e => p1 ≤ e.cumPct).isSome :=
      List.find?_isSome.mpr ⟨e2, hmem2, himp e2 hp2⟩
    obtain ⟨e1, h1⟩ := Option.isSome_iff_exists.mp hsome
    have hv1 : days_for_target_coverage dist p1 = e1.key := by
      simp only [days_for_target_coverage, hie, Bool.false_eq_true, if_false, h1]
    rw [hv1, hv2]
    obtain ⟨hpe1, s, t, heq, hfail⟩ := find?_split h1
    have he2ns : e2 ∉ s := by
      intro hin
      have hf := hfail e2 hin
      have ht := himp e2 hp2
      rw [hf] at ht
      exact Bool.false_ne_true ht
    have he2' : e2 ∈ s ++ e1 :: t := heq ▸ hmem2
    rcases List.mem_append.mp he2' with hin | hin
    · exact absurd hin he2ns
    rcases List.mem_cons.mp hin with heq2 | hin'
    · rw [heq2]
    · have hpair : (dist.map DistEntry.key).Pairwise (· ≤ ·) := hsorted
      rw [heq, List.map_append, List.map_cons] at hpair
      exact (List.pairwise_cons.mp (List.pairwise_append.mp hpair).2.1).1 _
        (List.mem_map_of_mem _ hin')

/-- C9: applying the Reason Filter (exact reason match plus negative-delta
exclusion) twice with the same parameters yields the same result as applying
it once, for every record set, optional reason and flag setting. -/
theorem C9_reason_filter_idempotent (recs : List Record) (sel : Option String)
    (excl : Bool) :
    df_filtered sel excl (df_filtered sel excl recs) = df_filtered sel excl recs := by
  cases sel with
  | none =>
    cases excl with
    | false => rfl
    | true =>
      simp only [df_filtered, if_true]
      exact List.filter_eq_self.mpr fun a ha => (List.mem_filter.mp ha).2
  | some s =>
    cases excl with
    | false =>
      simp only [df_filtered, Bool.false_eq_true, if_false]
      exact List.filter_eq_self.mpr fun a ha => (List.mem_filter.mp ha).2
    | true =>
      simp only [df_filtered, if_true]
      have h1 : ((recs.filter fun r => r.reason == s).filter
            fun r => 0 ≤ r.delta_days).filter (fun r => r.reason == s) =
          (recs.filter fun r => r.reason == s).filter fun r => 0 ≤ r.delta_days :=
        List.filter_eq_self.mpr fun a ha =>
          (List.mem_filter.mp (List.mem_filter.mp ha).1).2
      rw [h1]
      exact List.filter_eq_self.mpr fun a ha => (List.mem_filter.mp ha).2

/-! ### Helper lemmas for the aggregation claims -/

theorem dedup_replicate_succ {α : Type} [DecidableEq α] (n : ℕ) (a : α) :
    (List.replicate (n + 1) a).dedup = [a] := by
  induction n with
  | zero => rfl
  | succ m ih =>
    have hmem : a ∈ List.replicate (m + 1) a :=
      List.mem_replicate.mpr ⟨Nat.succ_ne_zero m, rfl⟩
    calc (List.replicate (m + 2) a).dedup
        = (a :: List.replicate (m + 1) a).dedup := rfl
      _ = (List.replicate (m + 1) a).dedup := List.dedup_cons_of_mem hmem
      _ = [a] := ih

theorem replicate_union {α : Type} [DecidableEq α] (n : ℕ) (a : α) (l : List α) :
    List.replicate (n + 1) a ∪ l = List.insert a l := by
  induction n with
  | zero =>
    show a :: ([] : List α) ∪ l = List.insert a l
    rw [List.cons_union, List.nil_union]
  | succ m ih =>
    calc List.replicate (m + 2) a ∪ l
        = List.insert a (List.replicate (m + 1) a ∪ l) := List.cons_union _ _ _
      _ = List.insert a (List.insert a l) := by rw [ih]
      _ = List.insert a l := List.insert_of_mem (List.mem_insert_self a l)

theorem quantile_replicate {n : ℕ} (hn : n ≠ 0) (c q : ℚ) (h0 : 0 ≤ q) (h1 : q ≤ 1) :
    quantile (List.replicate n c) q = c := by
  have hsorted : (List.replicate n c).Sorted (· ≤ ·) :=
    List.pairwise_replicate.mpr (Or.inr (le_refl c))
  have hie : (List.replicate n c).isEmpty = false := by
    cases n with
    | zero => exact absurd rfl hn
    | succ m => rfl
  simp only [quantile, List.Sorted.insertionSort_eq hsorted, hie, Bool.false_eq_true,
    if_false, List.length_replicate]
  have hn1 : (1 : ℚ) ≤ (n : ℚ) := by
    exact_mod_cast Nat.one_le_iff_ne_zero.mpr hn
  have hh0 : (0 : ℚ) ≤ ((n : ℚ) - 1) * q := mul_nonneg (by linarith) h0
  have hhle : ((n : ℚ) - 1) * q ≤ (n : ℚ) - 1 := by
    calc ((n : ℚ) - 1) * q ≤ ((n : ℚ) - 1) * 1 :=
          mul_le_mul_of_nonneg_left h1 (by linarith)
      _ = (n : ℚ) - 1 := mul_one _
  have hfl0 : 0 ≤ ⌊((n : ℚ) - 1) * q⌋ := Int.le_floor.mpr (by exact_mod_cast hh0)
  have hflle : ⌊((n : ℚ) - 1) * q⌋ ≤ (n : ℤ) - 1 := by
    have hmono := Int.floor_mono hhle
    rwa [show ((n : ℚ) - 1) = ((n : ℚ) - ((1 : ℤ) : ℚ)) by norm_num,
      Int.floor_sub_int, Int.floor_natCast] at hmono
  have hcle : ⌈((n : ℚ) - 1) * q⌉ ≤ (n : ℤ) - 1 := by
    have hmono := Int.ceil_mono hhle
    rwa [show ((n : ℚ) - 1) = ((n : ℚ) - ((1 : ℤ) : ℚ)) by norm_num,
      Int.ceil_sub_int, Int.ceil_natCast] at hmono
  have hlo : ⌊((n : ℚ) - 1) * q⌋.toNat < n := by omega
  have hhi : ⌈((n : ℚ) - 1) * q⌉.toNat < n := by
    have hc0 : 0 ≤ ⌈((n : ℚ) - 1) * q⌉ := le_trans hfl0 (Int.floor_le_ceil _)
    omega
  rw [List.getD_eq_getElem?_getD, List.getD_eq_getElem?_getD, List.getElem?_replicate,
    List.getElem?_replicate, if_pos hlo, if_pos hhi]
  show c + (((n : ℚ) - 1) * q - _) * (c - c) = c
  ring

theorem summarize_map_sum (recs : List Record) (f : CampaignSummary → ℚ) :
    ((summarize_by_campaign recs).map f).sum =
      (((recs.map Record.campaign).dedup).map fun c => f (summaryRowOf recs c)).sum := by
  simp only [summarize_by_campaign]
  rw [((List.perm_insertionSort _ _).map f).sum_eq, List.map_map]
  exact ((List.perm_insertionSort _ _).map _).sum_eq

theorem summarize_length (recs : List Record) :
    (summarize_by_campaign recs).length = ((recs.map Record.campaign).dedup).length := by
  simp only [summarize_by_campaign]
  rw [(List.perm_insertionSort _ _).length_eq, List.length_map,
    (List.perm_insertionSort _ _).length_eq]

theorem filter_replicate_pos {α : Type} {p : α → Bool} {a : α} (h : p a = true) (n : ℕ) :
    (List.replicate n a).filter p = List.replicate n a := by
  rw [List.filter_replicate, if_pos h]

theorem filter_replicate_neg {α : Type} {p : α → Bool} {a : α} (h : p a = false) (n : ℕ) :
    (List.replicate n a).filter p = [] := by
  rw [List.filter_replicate, if_neg]
  simp [h]

theorem summaryRowOf_median (recs : List Record) (c : String) :
    (summaryRowOf recs c).median =
      quantile ((campaign_deltas recs c).map fun d : ℤ => (d : ℚ)) (1 / 2) := rfl

theorem summaryRowOf_p95 (recs : List Record) (c : String) :
    (summaryRowOf recs c).p95 =
      quantile ((campaign_deltas recs c).map fun d : ℤ => (d : ℚ)) (19 / 20) := rfl

theorem summaryRowOf_p99 (recs : List Record) (c : String) :
    (summaryRowOf recs c).p99 =
      quantile ((campaign_deltas recs c).map fun d : ℤ => (d : ℚ)) (99 / 100) := rfl

theorem avg_stat_two_campaigns (recs : List Record) (f : CampaignSummary → ℚ)
    (hded : (recs.map Record.campaign).dedup = ["A", "B"])
    (hA : f (summaryRowOf recs "A") = 5) (hB : f (summaryRowOf recs "B") = 50) :
    round2 ((((summarize_by_campaign recs).map f).sum) /
      (((summarize_by_campaign recs).map f).length : ℚ)) = 55 / 2 := by
  rw [summarize_map_sum, List.length_map, summarize_length, hded]
  simp only [List.map_cons, List.map_nil, List.sum_cons, List.sum_nil, hA, hB,
    List.length_cons, List.length_nil]
  have hfl : ⌊((5 : ℚ) + (50 + 0)) / ((((0 + 1 + 1 : ℕ) : ℕ) : ℚ)) * 100 + 1 / 2⌋ = 2750 := by
    norm_num [Int.floor_eq_iff]
  rw [round2, hfl]
  norm_num

/-- C5: for campaign A (10 records at `delta_days = 5`) and campaign B
(1000 records at `delta_days = 50`), the pooled ("by records") median is 50
while the "average of campaigns" median — the mean across campaigns of each
campaign's own median, with the same rule for p95 and p99 — is 27.5, so the
averaged mode differs from computing percentiles on the pooled population. -/
theorem C5_pooled_vs_averaged :
    pooled_quantile
        (List.replicate 10 (⟨"A", 0, 5, "r"⟩ : Record) ++
          List.replicate 1000 (⟨"B", 0, 50, "r"⟩ : Record)) (1 / 2) = 50 ∧
    avg_campaign_median
        (List.replicate 10 (⟨"A", 0, 5, "r"⟩ : Record) ++
          List.replicate 1000 (⟨"B", 0, 50, "r"⟩ : Record)) = 55 / 2 ∧
    avg_campaign_p95
        (List.replicate 10 (⟨"A", 0, 5, "r"⟩ : Record) ++
          List.replicate 1000 (⟨"B", 0, 50, "r"⟩ : Record)) = 55 / 2 ∧
    avg_campaign_p99
        (List.replicate 10 (⟨"A", 0, 5, "r"⟩ : Record) ++
          List.replicate 1000 (⟨"B", 0, 50, "r"⟩ : Record)) = 55 / 2 ∧
    avg_campaign_median
        (List.replicate 10 (⟨"A", 0, 5, "r"⟩ : Record) ++
          List.replicate 1000 (⟨"B", 0, 50, "r"⟩ : Record)) ≠
      pooled_quantile
        (List.replicate 10 (⟨"A", 0, 5, "r"⟩ : Record) ++
          List.replicate 1000 (⟨"B", 0, 50, "r"⟩ : Record)) (1 / 2) := by
  obtain ⟨recsAB, hrecs⟩ :
      ∃ l : List Record, l = List.replicate 10 (⟨"A", 0, 5, "r"⟩ : Record) ++
        List.replicate 1000 (⟨"B", 0, 50, "r"⟩ : Record) := ⟨_, rfl⟩
  rw [← hrecs]
  have hded : (recsAB.map Record.campaign).dedup = ["A", "B"] := by
    rw [hrecs, List.map_append, List.map_replicate, List.map_replicate]
    rw [List.dedup_append, show (1000 : ℕ) = 999 + 1 from rfl, dedup_replicate_succ,
      show (10 : ℕ) = 9 + 1 from rfl, replicate_union]
    decide
  have hca : campaign_deltas recsAB "A" = List.replicate 10 (5 : ℤ) := by
    rw [hrecs]
    simp only [campaign_deltas, delta_series, List.filter_append]
    rw [filter_replicate_pos (p := fun r : Record => r.campaign == "A") (by decide) 10,
      filter_replicate_neg (p := fun r : Record => r.campaign == "A") (by decide) 1000,
      List.append_nil, List.map_replicate]
  have hcb : campaign_deltas recsAB "B" = List.replicate 1000 (50 : ℤ) := by
    rw [hrecs]
    simp only [campaign_deltas, delta_series, List.filter_append]
    rw [filter_replicate_neg (p := fun r : Record => r.campaign == "B") (by decide) 10,
      filter_replicate_pos (p := fun r : Record => r.campaign == "B") (by decide) 1000,
      List.nil_append, List.map_replicate]
  have hqA : ∀ q : ℚ, 0 ≤ q → q ≤ 1 →
      quantile ((campaign_deltas recsAB "A").map fun d : ℤ => (d : ℚ)) q = 5 := by
    intro q hq0 hq1
    rw [hca, List.map_replicate, show ((5 : ℤ) : ℚ) = 5 from by norm_num]
    exact quantile_replicate (by norm_num) 5 q hq0 hq1
  have hqB : ∀ q : ℚ, 0 ≤ q → q ≤ 1 →
      quantile ((campaign_deltas recsAB "B").map fun d : ℤ => (d : ℚ)) q = 50 := by
    intro q hq0 hq1
    rw [hcb, List.map_replicate, show ((50 : ℤ) : ℚ) = 50 from by norm_num]
    exact quantile_replicate (by norm_num) 50 q hq0 hq1
  have hpool : pooled_quantile recsAB (1 / 2) = 50 := by
    have hdl : (delta_series recsAB).map (fun d : ℤ => (d : ℚ)) =
        List.replicate 10 (5 : ℚ) ++ List.replicate 1000 (50 : ℚ) := by
      rw [hrecs]
      simp only [delta_series, List.map_append, List.map_replicate]
      norm_num
    simp only [pooled_quantile]
    rw [hdl]
    have hsorted : (List.replicate 10 (5 : ℚ) ++ List.replicate 1000 (50 : ℚ)).Sorted
        (· ≤ ·) := by
      refine List.pairwise_append.mpr
        ⟨List.pairwise_replicate.mpr (Or.inr (le_refl _)),
          List.pairwise_replicate.mpr (Or.inr (le_refl _)), ?_⟩
      intro a ha b hb
      rw [List.eq_of_mem_replicate ha, List.eq_of_mem_replicate hb]
      norm_num
    have hie : (List.replicate 10 (5 : ℚ) ++ List.replicate 1000 (50 : ℚ)).isEmpty =
        false := rfl
    simp only [quantile, List.Sorted.insertionSort_eq hsorted, hie, Bool.false_eq_true,
      if_false, List.length_append, List.length_replicate]
    have hfl : ⌊((((10 + 1000 : ℕ)) : ℚ) - 1) * (1 / 2)⌋ = 504 := by
      norm_num [Int.floor_eq_iff]
    have hcl : ⌈((((10 + 1000 : ℕ)) : ℚ) - 1) * (1 / 2)⌉ = 505 := by
      norm_num [Int.ceil_eq_iff]
    rw [hfl, hcl]
    have hg1 : (List.replicate 10 (5 : ℚ) ++ List.replicate 1000 (50 : ℚ)).getD
        ((504 : ℤ).toNat) 0 = 50 := by
      rw [List.getD_eq_getElem?_getD, show ((504 : ℤ).toNat) = 504 from rfl,
        List.getElem?_append_right (by simp)]
      norm_num [List.getElem?_replicate]
    have hg2 : (List.replicate 10 (5 : ℚ) ++ List.replicate 1000 (50 : ℚ)).getD
        ((505 : ℤ).toNat) 0 = 50 := by
      rw [List.getD_eq_getElem?_getD, show ((505 : ℤ).toNat) = 505 from rfl,
        List.getElem?_append_right (by simp)]
      norm_num [List.getElem?_replicate]
    rw [hg1, hg2]
    norm_num
  have hmedA : (summaryRowOf recsAB "A").median = 5 := by
    rw [summaryRowOf_median]
    exact hqA (1 / 2) (by norm_num) (by norm_num)
  have hmedB : (summaryRowOf recsAB "B").median = 50 := by
    rw [summaryRowOf_median]
    exact hqB (1 / 2) (by norm_num) (by norm_num)
  have hp95A : (summaryRowOf recsAB "A").p95 = 5 := by
    rw [summaryRowOf_p95]
    exact hqA (19 / 20) (by norm_num) (by norm_num)
  have hp95B : (summaryRowOf recsAB "B").p95 = 50 := by
    rw [summaryRowOf_p95]
    exact hqB (19 / 20) (by norm_num) (by norm_num)
  have hp99A : (summaryRowOf recsAB "A").p99 = 5 := by
    rw [summaryRowOf_p99]
    exact hqA (99 / 100) (by norm_num) (by norm_num)
  have hp99B : (summaryRowOf recsAB "B").p99 = 50 := by
    rw [summaryRowOf_p99]
    exact hqB (99 / 100) (by norm_num) (by norm_num)
  have hmed : avg_campaign_median recsAB = 55 / 2 := by
    simp only [avg_campaign_median]
    rw [avg_stat_two_campaigns recsAB CampaignSummary.median hded hmedA hmedB]
  have hp95 : avg_campaign_p95 recsAB = 55 / 2 := by
    simp only [avg_campaign_p95]
    rw [avg_stat_two_campaigns recsAB CampaignSummary.p95 hded hp95A hp95B]
  have hp99 : avg_campaign_p99 recsAB = 55 / 2 := by
    simp only [avg_campaign_p99]
    rw [avg_stat_two_campaigns recsAB CampaignSummary.p99 hded hp99A hp99B]
  refine ⟨hpool, hmed, hp95, hp99, ?_⟩
  rw [hmed, hpool]
  norm_num

/-- Evaluation helper: compute `coverage_for_days` from the covered count,
the total count and the bracketed floor value. -/
theorem coverage_eval (dist : List DistEntry) (days : Int) (c t : ℕ) (n : ℤ)
    (hne : dist ≠ []) (hq : dist.filter (fun e => e.key ≤ days) ≠ [])
    (hc : ((dist.filter fun e => e.key ≤ days).map DistEntry.count).sum = c)
    (ht : (dist.map DistEntry.count).sum = t)
    (hfl : ⌊(c : ℚ) / (t : ℚ) * 100 * 100 + 1 / 2⌋ = n) :
    coverage_for_days dist days = (n : ℚ) / 100 := by
  rw [coverage_for_days_formula dist days hne hq, hc, ht, round2, hfl]

/-- C6 counterexample: on the record set with `delta_days` `[-3, 0, 2]` and
negative-delta exclusion enabled, `coverage_for_days(·, 0)` is 50.00%, not
the 66.67% stated by the claim. -/
theorem C6_counterexample :
    coverage_for_days (compute_distribution (delta_series (df_filtered none true
      [⟨"m", 0, -3, "x"⟩, ⟨"m", 0, 0, "x"⟩, ⟨"m", 0, 2, "x"⟩]))) 0 ≠ 6667 / 100 := by
  have h1 : delta_series (df_filtered none true
      [⟨"m", 0, -3, "x"⟩, ⟨"m", 0, 0, "x"⟩, ⟨"m", 0, 2, "x"⟩]) = ([0, 2] : List ℤ) := by
    decide
  rw [h1, coverage_eval (compute_distribution [0, 2]) 0 1 2 5000 (by decide) (by decide)
    (by decide) (by decide) (by norm_num [Int.floor_eq_iff])]
  norm_num

/-- C6 (amended): for the record set with `delta_days` `[-3, 0, 2]`, with
negative-delta exclusion enabled the filtered population is `[0, 2]`, with it
disabled the population is `[-3, 0, 2]`, and `coverage_for_days(·, 0)` on the
distributions built from these two populations differs between the two,
taking the values 50.00% and 66.67% respectively. -/
theorem C6_negative_delta_exclusion :
    delta_series (df_filtered none true
        [⟨"m", 0, -3, "x"⟩, ⟨"m", 0, 0, "x"⟩, ⟨"m", 0, 2, "x"⟩]) = [0, 2] ∧
    delta_series (df_filtered none false
        [⟨"m", 0, -3, "x"⟩, ⟨"m", 0, 0, "x"⟩, ⟨"m", 0, 2, "x"⟩]) = [-3, 0, 2] ∧
    coverage_for_days (compute_distribution (delta_series (df_filtered none true
        [⟨"m", 0, -3, "x"⟩, ⟨"m", 0, 0, "x"⟩, ⟨"m", 0, 2, "x"⟩]))) 0 = 50 ∧
    coverage_for_days (compute_distribution (delta_series (df_filtered none false
        [⟨"m", 0, -3, "x"⟩, ⟨"m", 0, 0, "x"⟩, ⟨"m", 0, 2, "x"⟩]))) 0 = 6667 / 100 ∧
    (50 : ℚ) ≠ 6667 / 100 := by
  have h1 : delta_series (df_filtered none true
      [⟨"m", 0, -3, "x"⟩, ⟨"m", 0, 0, "x"⟩, ⟨"m", 0, 2, "x"⟩]) = ([0, 2] : List ℤ) := by
    decide
  have h2 : delta_series (df_filtered none false
      [⟨"m", 0, -3, "x"⟩, ⟨"m", 0, 0, "x"⟩, ⟨"m", 0, 2, "x"⟩]) = ([-3, 0, 2] : List ℤ) := by
    decide
  refine ⟨h1, h2, ?_, ?_, by norm_num⟩
  · rw [h1, coverage_eval (compute_distribution [0, 2]) 0 1 2 5000 (by decide) (by decide)
      (by decide) (by decide) (by norm_num [Int.floor_eq_iff])]
    norm_num
  · rw [h2, coverage_eval (compute_distribution [-3, 0, 2]) 0 2 3 6667 (by decide)
      (by decide) (by decide) (by decide) (by norm_num [Int.floor_eq_iff])]
    norm_num

/-- C4 counterexample: a campaign with the required columns, a resolved
official date and one row whose redress date is unparseable is NOT rejected:
`prepare_file_data` returns a usable record set with `after_count = 0` and no
records, instead of the rejection (`none`) the claim asserts. -/
theorem C4_counterexample :
    prepare_file_data "m" ⟨true, true, [⟨some "x", none⟩]⟩ (some 0) =
      some ⟨"m", 0, 1, 0, []⟩ := by decide

/-- C4 (amended): when a campaign's rows contain the required columns and a
resolved official date but zero rows have a parseable redress date, the
normalizer does NOT reject the campaign: it returns a usable empty record set
whose `after_count` is 0 (so the condition is detectable from the counters),
whereas a missing required column does cause rejection (`none`); no distinct
zero-parseable-dates diagnostic is raised. -/
theorem C4_zero_parseable_not_rejected (c : String) (d : ℤ) (rows : List RawRow)
    (hne : rows ≠ []) (hnp : ∀ row ∈ rows, row.redress = none) :
    prepare_file_data c ⟨true, true, rows⟩ (some d) =
      some ⟨c, d, rows.length, 0, []⟩ ∧
    prepare_file_data c ⟨false, true, rows⟩ (some d) = none := by
  constructor
  · have hfm : rows.filterMap
        (fun row => (row.redress).map fun rd => toRecord c d row.reason rd) = [] :=
      List.filterMap_eq_nil_iff.mpr fun row hrow => by rw [hnp row hrow]; rfl
    simp only [prepare_file_data]
    rw [if_neg]
    · simp [hfm]
    · simp [isEmpty_false_of_ne_nil hne]
  · simp only [prepare_file_data]
    rw [if_pos]
    simp

theorem C4_zero_parseable_not_rejected_witness :
    (([⟨some "x", none⟩] : List RawRow) ≠ []) ∧
    (∀ row ∈ ([⟨some "x", none⟩] : List RawRow), row.redress = none) ∧
    (prepare_file_data "m" ⟨true, true, [⟨some "x", none⟩]⟩ (some 0) =
        some ⟨"m", 0, 1, 0, []⟩ ∧
      prepare_file_data "m" ⟨false, true, [⟨some "x", none⟩]⟩ (some 0) = none) :=
  ⟨by decide, by decide,
   C4_zero_parseable_not_rejected "m" 0 [⟨some "x", none⟩] (by decide) (by decide)⟩

/-- C10 counterexample: a record whose raw reason is the present literal
string `"nan"` (not an absent value) is also selected by the exact-equality
reason filter with value `"nan"`, so the filter does not select exactly the
records whose reason was absent. -/
theorem C10_counterexample :
    (some "nan" : Option String) ≠ none ∧
    prepare_file_data "m" ⟨true, true, [⟨some "nan", some 0⟩]⟩ (some 0) =
      some ⟨"m", 0, 1, 1, [⟨"m", 0, 0, "nan"⟩]⟩ ∧
    df_filtered (some "nan") false [⟨"m", 0, 0, "nan"⟩] = [⟨"m", 0, 0, "nan"⟩] := by
  refine ⟨by decide, by decide, by decide⟩

/-- C10 (amended): normalization coerces every reason value to a string, an
absent reason becoming the literal `"nan"`; rows are never dropped because of
their reason (only unparseable redress dates drop rows); `"nan"` appears in
the selectable reason list exactly when some record carries it; and the
exact-equality reason filter with value `"nan"` selects exactly the records
whose coerced reason is `"nan"` — i.e. those whose raw reason was absent OR
was the literal string `"nan"`. -/
theorem C10_nan_reason_coercion (c : String) (d : ℤ) (t : RawTable) (p : Prepared)
    (hp : prepare_file_data c t (some d) = some p) :
    p.records = t.rows.filterMap
      (fun row => (row.redress).map fun rd => toRecord c d row.reason rd) ∧
    (∀ row ∈ t.rows, ∀ rd, row.redress = some rd →
      toRecord c d row.reason rd ∈ p.records) ∧
    ("nan" ∈ all_reasons p.records ↔ ∃ r ∈ p.records, r.reason = "nan") ∧
    (df_filtered (some "nan") false p.records =
      p.records.filter fun r => r.reason == "nan") ∧
    (∀ row : RawRow, ∀ rd : ℤ,
      (toRecord c d row.reason rd).reason = "nan" ↔
        (row.reason = none ∨ row.reason = some "nan")) := by
  have hrec : p.records = t.rows.filterMap
      (fun row => (row.redress).map fun rd => toRecord c d row.reason rd) := by
    simp only [prepare_file_data] at hp
    by_cases hcond : (t.rows.isEmpty || !(t.hasReasonCol && t.hasRedressCol)) = true
    · rw [if_pos hcond] at hp
      exact Option.noConfusion hp
    · rw [if_neg hcond] at hp
      rw [← Option.some.inj hp]
  refine ⟨hrec, ?_, ?_, rfl, ?_⟩
  · intro row hrow rd hrd
    rw [hrec]
    exact List.mem_filterMap.mpr ⟨row, hrow, by rw [hrd]; rfl⟩
  · simp only [all_reasons, List.mem_insertionSort, List.mem_dedup, List.mem_map]
  · intro row rd
    cases hrow : row.reason with
    | none => simp [toRecord, coerceReason, hrow]
    | some s => simp [toRecord, coerceReason, hrow]

theorem C10_nan_reason_coercion_witness :
    (prepare_file_data "m" ⟨true, true,
        [⟨none, some 3⟩, ⟨some "nan", some 4⟩, ⟨some "x", none⟩]⟩ (some 1) =
      some ⟨"m", 1, 3, 2, [⟨"m", 1, 2, "nan"⟩, ⟨"m", 1, 3, "nan"⟩]⟩) ∧
    ((⟨"m", 1, 3, 2, [⟨"m", 1, 2, "nan"⟩, ⟨"m", 1, 3, "nan"⟩]⟩ : Prepared).records =
      (⟨true, true, [⟨none, some 3⟩, ⟨some "nan", some 4⟩, ⟨some "x", none⟩]⟩ :
        RawTable).rows.filterMap
        (fun row => (row.redress).map fun rd => toRecord "m" 1 row.reason rd) ∧
    (∀ row ∈ (⟨true, true,
        [⟨none, some 3⟩, ⟨some "nan", some 4⟩, ⟨some "x", none⟩]⟩ : RawTable).rows,
      ∀ rd, row.redress = some rd →
        toRecord "m" 1 row.reason rd ∈
          (⟨"m", 1, 3, 2, [⟨"m", 1, 2, "nan"⟩, ⟨"m", 1, 3, "nan"⟩]⟩ : Prepared).records) ∧
    ("nan" ∈ all_reasons
        (⟨"m", 1, 3, 2, [⟨"m", 1, 2, "nan"⟩, ⟨"m", 1, 3, "nan"⟩]⟩ : Prepared).records ↔
      ∃ r ∈ (⟨"m", 1, 3, 2, [⟨"m", 1, 2, "nan"⟩, ⟨"m", 1, 3, "nan"⟩]⟩ : Prepared).records,
        r.reason = "nan") ∧
    (df_filtered (some "nan") false
        (⟨"m", 1, 3, 2, [⟨"m", 1, 2, "nan"⟩, ⟨"m", 1, 3, "nan"⟩]⟩ : Prepared).records =
      (⟨"m", 1, 3, 2, [⟨"m", 1, 2, "nan"⟩, ⟨"m", 1, 3, "nan"⟩]⟩ :
        Prepared).records.filter fun r => r.reason == "nan") ∧
    (∀ row : RawRow, ∀ rd : ℤ,
      (toRecord "m" 1 row.reason rd).reason = "nan" ↔
        (row.reason = none ∨ row.reason = some "nan"))) :=
  ⟨by decide,
   C10_nan_reason_coercion "m" 1
     ⟨true, true, [⟨none, some 3⟩, ⟨some "nan", some 4⟩, ⟨some "x", none⟩]⟩
     ⟨"m", 1, 3, 2, [⟨"m", 1, 2, "nan"⟩, ⟨"m", 1, 3, "nan"⟩]⟩ (by decide)⟩

theorem C8_days_for_target_coverage_mono_witness :
    ((([⟨0, 1, 1, 50⟩, ⟨2, 1, 2, 100⟩] : List DistEntry).map DistEntry.key).Sorted (· ≤ ·)) ∧
    ((60 : ℚ) ≤ 90) ∧
    days_for_target_coverage [⟨0, 1, 1, 50⟩, ⟨2, 1, 2, 100⟩] 60 ≤
      days_for_target_coverage [⟨0, 1, 1, 50⟩, ⟨2, 1, 2, 100⟩] 90 :=
  ⟨by decide, by decide,
   C8_days_for_target_coverage_mono [⟨0, 1, 1, 50⟩, ⟨2, 1, 2, 100⟩] (by decide) (by decide)⟩

end RedressAnalyzer
